import Mathlib

/-!
Shallow embedding of `src/lahmacuncache.c`: an in-process TTL key-value
cache backed by a chained hash table.

Modelling conventions:
* C strings (`char *` keys and values) are lists of byte values; a valid
  C string for this model has positive bytes below 128, so the DJB2 hash
  is independent of the signedness of `char`.
* `unsigned int` arithmetic is `Nat` reduced `% 2^32`; `size_t` counters
  are `Nat` reduced `% 2^64` (so `count--` at zero wraps as in C).
* `time_t` instants and `int` TTLs are `Int`; each public operation takes
  the current time as an explicit argument in place of `time(NULL)`.
* The bucket array is a function `Nat → List CacheEntry`; a chain is the
  list of entries linked through `next`, head first.
* The load-factor test `(float)(count + 1) / table_size > 0.7` is embedded
  as the exact rational comparison `10 * (count + 1) > 7 * table_size`
  (single-precision rounding is not modelled; see the development notes on
  the resize-trigger claim).
* `getCache`'s `while` loop advances its cursor only inside the
  key-match branch, so on a non-matching entry the C loop repeats the
  same iteration forever.  The loop is embedded fuel-indexed
  (`getLoop`); `none` means the fuel ran out, and a run that returns
  `none` for every fuel amount models the infinite loop.
-/

namespace LahmacunCache

/-- Byte string standing for a C string (the bytes before the NUL). -/
abbrev CStr := List Nat

def MAX_KEY_SIZE : Nat := 256

def MAX_VALUE_SIZE : Nat := 1024

def INITIAL_TABLE_SIZE : Nat := 10000

/-- Modulus of `unsigned int` arithmetic. -/
def U32 : Nat := 2 ^ 32

/-- Modulus of `size_t` arithmetic. -/
def SIZE_T : Nat := 2 ^ 64

/-- A C string valid for this model: shorter than `bound` (so `strncpy`
with limit `bound` copies it NUL-terminated and unchanged) and made of
positive bytes below 128. -/
def validCStr (s : CStr) (bound : Nat) : Prop :=
  s.length < bound ∧ ∀ b ∈ s, 0 < b ∧ b < 128

instance (s : CStr) (bound : Nat) : Decidable (validCStr s bound) := by
  unfold validCStr; infer_instance

/-- A key acceptable to the model (fits the 256-byte `key` array). -/
def validKey (s : CStr) : Prop := validCStr s MAX_KEY_SIZE

/-- A value acceptable to the model (fits the 1024-byte `value` array). -/
def validValue (s : CStr) : Prop := validCStr s MAX_VALUE_SIZE

instance (s : CStr) : Decidable (validKey s) := by unfold validKey; infer_instance

instance (s : CStr) : Decidable (validValue s) := by unfold validValue; infer_instance

/-- The loop of `hash`: `hash = ((hash << 5) + hash) + c`, i.e.
`hash * 33 + c`, in `unsigned int` arithmetic. -/
def hashAcc (h : Nat) : CStr → Nat
  | [] => h
  | c :: rest => hashAcc ((h * 33 + c) % U32) rest

/-- `hash(key, table_size)`: DJB2 starting at 5381, reduced modulo the
table size. -/
def hash (key : CStr) (table_size : Nat) : Nat :=
  hashAcc 5381 key % table_size

/-- One `CacheEntry`: key, value, absolute expiry, liveness flag.  The
`next` pointer is represented by the position in the chain list. -/
structure CacheEntry where
  key : CStr
  value : CStr
  expry : Int
  is_set : Bool
deriving DecidableEq, Repr

/-- The `Cache` record.  `entries` maps a bucket index to its chain;
the mutex only serializes calls and has no sequential content. -/
structure Cache where
  entries : Nat → List CacheEntry
  table_size : Nat
  count : Nat

/-- `createCache()`: `INITIAL_TABLE_SIZE` empty buckets, count 0. -/
def createCache : Cache :=
  { entries := fun _ => [], table_size := INITIAL_TABLE_SIZE, count := 0 }

/-- `strncpy(dst, src, n)` into a fresh `n`-byte array, read back as a C
string.  Faithful when `src.length < n`; a longer `src` leaves the array
without a NUL terminator, which this model does not represent. -/
def strncpyTrunc (src : CStr) (n : Nat) : CStr := src.take n

/-- Prepend entry `e` to bucket `idx` of table `t`. -/
def bucketCons (idx : Nat) (e : CacheEntry) (t : Nat → List CacheEntry) :
    Nat → List CacheEntry :=
  fun j => if j = idx then e :: t j else t j

/-- The load-factor test of `setCache`, embedded as the exact comparison
`10 * (count + 1) > 7 * table_size` (the C source evaluates
`(float)(count + 1) / table_size > 0.7` in floating point). -/
def loadFactorExceeded (count table_size : Nat) : Bool :=
  decide (10 * ((count + 1) % SIZE_T) > 7 * table_size)

/-- `resizeCache`: double the size, then walk every old bucket head to
tail, prepending each entry to bucket `hash(key, new_size)` of the new
table (so same-bucket runs come out reversed).  `count` is untouched. -/
def resizeCache (c : Cache) : Cache :=
  let new_size := c.table_size * 2
  let new_entries :=
    (List.range c.table_size).foldl
      (fun acc i =>
        (c.entries i).foldl
          (fun acc2 e => bucketCons (hash e.key new_size) e acc2) acc)
      (fun _ => [])
  { entries := new_entries, table_size := new_size, count := c.count }

/-- `setCache`: resize if the load factor is exceeded, then prepend a
fresh live entry (key/value truncated by `strncpy`) with expiry
`now + ttl` to bucket `hash(key, table_size)`, and increment `count`. -/
def setCache (c : Cache) (key value : CStr) (ttl : Int) (now : Int) : Cache :=
  let c1 := if loadFactorExceeded c.count c.table_size then resizeCache c else c
  let index := hash key c1.table_size
  let e : CacheEntry :=
    { key := strncpyTrunc key MAX_KEY_SIZE
      value := strncpyTrunc value MAX_VALUE_SIZE
      expry := now + ttl
      is_set := true }
  { c1 with
      entries := bucketCons index e c1.entries
      count := (c1.count + 1) % SIZE_T }

/-- The `while` loop of `getCache`, fuel-indexed.  Returns
`some (result, updated chain, updated count)` when the C loop would
leave the chain within `fuel` iterations, `none` when the fuel runs
out.  On a key match: if unexpired, return the value at once; if
expired, clear `is_set`, decrement `count` (with `size_t` wrap), and
advance.  On a mismatch the C code does not advance the cursor, so the
model repeats the same state on less fuel. -/
def getLoop (key : CStr) (now : Int) :
    Nat → List CacheEntry → Nat → Option (Option CStr × List CacheEntry × Nat)
  | 0, _, _ => none
  | _ + 1, [], count => some (none, [], count)
  | fuel + 1, e :: rest, count =>
    if e.key = key then
      if now < e.expry then
        some (some e.value, e :: rest, count)
      else
        match getLoop key now fuel rest ((count + (SIZE_T - 1)) % SIZE_T) with
        | none => none
        | some (r, rest', count') =>
          some (r, { e with is_set := false } :: rest', count')
    else
      getLoop key now fuel (e :: rest) count

/-- `getCache` with explicit fuel: run `getLoop` on the bucket of `key`
and write the updated chain and count back into the cache. -/
def getCacheF (fuel : Nat) (c : Cache) (key : CStr) (now : Int) :
    Option (Option CStr × Cache) :=
  let index := hash key c.table_size
  match getLoop key now fuel (c.entries index) c.count with
  | none => none
  | some (r, chain', count') =>
    some (r, { c with
                entries := fun j => if j = index then chain' else c.entries j
                count := count' })

/-- `getCache`.  Fuel `chain.length + 1` is enough for every terminating
run of the C loop (each iteration either returns or consumes one chain
entry), so `none` here means the C call never returns. -/
def getCache (c : Cache) (key : CStr) (now : Int) : Option (Option CStr × Cache) :=
  getCacheF ((c.entries (hash key c.table_size)).length + 1) c key now

/-- The cache state after a terminating `getCache` call (unchanged state
if the call would not terminate). -/
def afterGet (c : Cache) (key : CStr) (now : Int) : Cache :=
  match getCache c key now with
  | some (_, c') => c'
  | none => c

/-- The `while` loop of `deleteCache`: return the chain with the first
entry matching `key` removed, or `none` when no entry matches. -/
def deleteLoop (key : CStr) : List CacheEntry → Option (List CacheEntry)
  | [] => none
  | e :: rest =>
    if e.key = key then some rest
    else (deleteLoop key rest).map (fun rest' => e :: rest')

/-- `deleteCache`: unlink and free the first matching entry of the
bucket of `key` and decrement `count`; no-op when the key is absent. -/
def deleteCache (c : Cache) (key : CStr) : Cache :=
  let index := hash key c.table_size
  match deleteLoop key (c.entries index) with
  | none => c
  | some chain' =>
    { c with
        entries := fun j => if j = index then chain' else c.entries j
        count := (c.count + (SIZE_T - 1)) % SIZE_T }

/-- Number of live (`is_set = 1`) entries in one chain. -/
def liveLen (chain : List CacheEntry) : Nat :=
  (chain.filter (fun e => e.is_set)).length

/-- Total number of live entries over the first `n` buckets of `t`. -/
def sumLive (n : Nat) (t : Nat → List CacheEntry) : Nat :=
  ∑ j ∈ Finset.range n, liveLen (t j)

/-- Number of live entries reachable from the bucket array. -/
def liveCount (c : Cache) : Nat := sumLive c.table_size c.entries

/-- The bookkeeping invariant of the specification: the `count` field
equals the number of reachable live entries. -/
def countInv (c : Cache) : Prop := c.count = liveCount c

/-! ### Auxiliary lemmas about buckets, live counts, and the loops -/

theorem bucketCons_self (idx : Nat) (e : CacheEntry) (t : Nat → List CacheEntry) :
    bucketCons idx e t idx = e :: t idx := by
  simp [bucketCons]

theorem bucketCons_ne {j idx : Nat} (e : CacheEntry) (t : Nat → List CacheEntry)
    (h : j ≠ idx) : bucketCons idx e t j = t j := by
  simp [bucketCons, h]

theorem liveLen_nil : liveLen [] = 0 := rfl

theorem liveLen_cons (e : CacheEntry) (l : List CacheEntry) :
    liveLen (e :: l) = (if e.is_set then 1 else 0) + liveLen l := by
  by_cases h : e.is_set <;> simp [liveLen, List.filter_cons, h, Nat.add_comm]

theorem hash_lt (key : CStr) {n : Nat} (h : 0 < n) : hash key n < n :=
  Nat.mod_lt _ h

theorem strncpyTrunc_of_valid {s : CStr} {b : Nat} (h : validCStr s b) :
    strncpyTrunc s b = s :=
  List.take_of_length_le (le_of_lt h.1)

theorem sumLive_congrLt {n : Nat} {t t' : Nat → List CacheEntry}
    (h : ∀ j, j < n → t j = t' j) : sumLive n t = sumLive n t' := by
  unfold sumLive
  exact Finset.sum_congr rfl fun j hj => by rw [h j (Finset.mem_range.mp hj)]

theorem sumLive_bucketCons {idx n : Nat} (h : idx < n) (e : CacheEntry)
    (t : Nat → List CacheEntry) :
    sumLive n (bucketCons idx e t) = (if e.is_set then 1 else 0) + sumLive n t := by
  unfold sumLive
  have step : ∀ j ∈ Finset.range n,
      liveLen (bucketCons idx e t j) =
        liveLen (t j) + (if j = idx then (if e.is_set then 1 else 0) else 0) := by
    intro j _
    by_cases hji : j = idx
    · subst hji; rw [bucketCons_self, liveLen_cons]; simp [Nat.add_comm]
    · rw [bucketCons_ne e t hji]; simp [hji]
  rw [Finset.sum_congr rfl step, Finset.sum_add_distrib,
    Finset.sum_ite_eq' (Finset.range n) idx fun _ => if e.is_set then 1 else 0]
  simp [Finset.mem_range.mpr h, Nat.add_comm]

theorem sumLive_empty (n : Nat) : sumLive n (fun _ => []) = 0 := by
  unfold sumLive
  simp [liveLen_nil]

theorem sumLive_single {idx n : Nat} (h : idx < n) (ch : List CacheEntry) :
    sumLive n (fun j => if j = idx then ch else []) = liveLen ch := by
  unfold sumLive
  have step : ∀ j ∈ Finset.range n,
      liveLen (if j = idx then ch else []) = (if j = idx then liveLen ch else 0) := by
    intro j _
    by_cases hj : j = idx <;> simp [hj, liveLen_nil]
  rw [Finset.sum_congr rfl step,
    Finset.sum_ite_eq' (Finset.range n) idx fun _ => liveLen ch]
  simp [Finset.mem_range.mpr h]

theorem sumLive_chainFold {n : Nat} (hn : 0 < n) :
    ∀ (chain : List CacheEntry) (t : Nat → List CacheEntry),
      sumLive n (chain.foldl (fun a e => bucketCons (hash e.key n) e a) t)
        = liveLen chain + sumLive n t
  | [], t => by simp [liveLen_nil]
  | e :: chain, t => by
    rw [List.foldl_cons, sumLive_chainFold hn chain _,
      sumLive_bucketCons (hash_lt e.key hn) e t, liveLen_cons]
    omega

theorem sumLive_rangeFold {n : Nat} (hn : 0 < n) (src : Nat → List CacheEntry) :
    ∀ (M : Nat) (t : Nat → List CacheEntry),
      sumLive n ((List.range M).foldl
          (fun acc i => (src i).foldl (fun a e => bucketCons (hash e.key n) e a) acc) t)
        = (∑ i ∈ Finset.range M, liveLen (src i)) + sumLive n t
  | 0, t => by simp
  | M + 1, t => by
    rw [List.range_succ, List.foldl_append, List.foldl_cons, List.foldl_nil,
      sumLive_chainFold hn, sumLive_rangeFold hn src M t, Finset.sum_range_succ]
    omega

theorem liveCount_resizeCache (c : Cache) (h : 0 < c.table_size) :
    liveCount (resizeCache c) = liveCount c := by
  have h2 : 0 < c.table_size * 2 := by omega
  unfold liveCount
  have hts : (resizeCache c).table_size = c.table_size * 2 := rfl
  have he : (resizeCache c).entries = (List.range c.table_size).foldl
      (fun acc i => (c.entries i).foldl
        (fun a e => bucketCons (hash e.key (c.table_size * 2)) e a) acc)
      (fun _ => []) := rfl
  rw [hts, he, sumLive_rangeFold h2 c.entries c.table_size (fun _ => []),
    sumLive_empty, Nat.add_zero]
  rfl

theorem rangeFold_empty (g : (Nat → List CacheEntry) → CacheEntry → Nat → List CacheEntry)
    (src : Nat → List CacheEntry) :
    ∀ (M : Nat) (t : Nat → List CacheEntry), (∀ i, i < M → src i = []) →
      (List.range M).foldl (fun acc i => (src i).foldl g acc) t = t
  | 0, t, _ => by simp
  | M + 1, t, h => by
    rw [List.range_succ, List.foldl_append, List.foldl_cons, List.foldl_nil,
      h M (Nat.lt_succ_self M), List.foldl_nil]
    exact rangeFold_empty g src M t fun i hi => h i (by omega)

theorem rangeFold_single (g : (Nat → List CacheEntry) → CacheEntry → Nat → List CacheEntry)
    (src : Nat → List CacheEntry) (i0 : Nat) :
    ∀ (M : Nat) (t : Nat → List CacheEntry), i0 < M →
      (∀ i, i < M → i ≠ i0 → src i = []) →
      (List.range M).foldl (fun acc i => (src i).foldl g acc) t = (src i0).foldl g t
  | 0, _, h, _ => absurd h (Nat.not_lt_zero _)
  | M + 1, t, h, hothers => by
    rw [List.range_succ, List.foldl_append, List.foldl_cons, List.foldl_nil]
    by_cases hM : M = i0
    · subst hM
      rw [rangeFold_empty g src M t fun i hi => hothers i (by omega) (by omega)]
    · rw [hothers M (Nat.lt_succ_self M) hM, List.foldl_nil]
      exact rangeFold_single g src i0 M t (by omega) fun i hi hne => hothers i (by omega) hne

theorem getLoop_stuck {e : CacheEntry} {key : CStr} (hne : ¬ e.key = key) (now : Int) :
    ∀ (fuel : Nat) (rest : List CacheEntry) (count : Nat),
      getLoop key now fuel (e :: rest) count = none
  | 0, _, _ => rfl
  | fuel + 1, rest, count => by
    rw [getLoop, if_neg hne]
    exact getLoop_stuck hne now fuel rest count

theorem liveCount_fun_single (c : Cache) (idx : Nat) (ch : List CacheEntry)
    (hidx : idx < c.table_size)
    (h : ∀ j, j < c.table_size → c.entries j = if j = idx then ch else []) :
    liveCount c = liveLen ch := by
  unfold liveCount
  rw [sumLive_congrLt h, sumLive_single hidx]

theorem setCache_no_resize {c : Cache} (key value : CStr) (ttl now : Int)
    (h : loadFactorExceeded c.count c.table_size = false) :
    setCache c key value ttl now =
      { c with
          entries := bucketCons (hash key c.table_size)
            { key := strncpyTrunc key MAX_KEY_SIZE
              value := strncpyTrunc value MAX_VALUE_SIZE
              expry := now + ttl
              is_set := true } c.entries
          count := (c.count + 1) % SIZE_T } := by
  simp only [setCache, h, Bool.false_eq_true, if_false]

theorem resizeCache_entries_single (c : Cache) (i0 : Nat) (ch : List CacheEntry)
    (hi0 : i0 < c.table_size)
    (hpt : ∀ j, c.entries j = if j = i0 then ch else []) :
    (resizeCache c).entries =
      ch.foldl (fun a e => bucketCons (hash e.key (c.table_size * 2)) e a)
        (fun _ => []) := by
  have he : (resizeCache c).entries = (List.range c.table_size).foldl
      (fun acc i => (c.entries i).foldl
        (fun a e => bucketCons (hash e.key (c.table_size * 2)) e a) acc)
      (fun _ => []) := rfl
  rw [he, rangeFold_single _ c.entries i0 c.table_size (fun _ => []) hi0
    (fun i _ hne => by rw [hpt i, if_neg hne]), hpt i0, if_pos rfl]

/-! ### The claims -/

/-- C3: for every cache state, key, value and `ttl > 0`, a `getCache`
performed immediately after `setCache(key, value, ttl)` (same instant,
no intervening operation) terminates and returns `value`: the fresh
entry is prepended to the bucket of `key` and is the first live,
unexpired match of the lookup. -/
theorem getCache_after_setCache_roundtrip (c : Cache) (key value : CStr)
    (ttl now : Int) (hk : validKey key) (hv : validValue value) (ht : 0 < ttl) :
    (getCache (setCache c key value ttl now) key now).map Prod.fst =
      some (some value) := by
  have hks : strncpyTrunc key MAX_KEY_SIZE = key := strncpyTrunc_of_valid hk
  have hvs : strncpyTrunc value MAX_VALUE_SIZE = value := strncpyTrunc_of_valid hv
  have hnow : now < now + ttl := by omega
  simp [setCache, getCache, getCacheF, bucketCons, hks, hvs, getLoop, hnow]

/-- Concrete witness for the C3 round-trip theorem. -/
theorem getCache_after_setCache_roundtrip_witness :
    validKey [97] ∧ validValue [120] ∧ (0 : Int) < 5 ∧
      (getCache (setCache createCache [97] [120] 5 0) [97] 0).map Prod.fst =
        some (some [120]) :=
  ⟨by decide, by decide, by decide,
    getCache_after_setCache_roundtrip createCache [97] [120] 5 0
      (by decide) (by decide) (by decide)⟩

/-- C9: after `setCache(key, value, 0)` on a fresh cache (expiry is set
to the current instant), a `getCache(key)` at any time at least one
time unit later terminates and returns NULL: the entry's expiry is not
strictly in the future, so the lookup tombstones it and reports the key
absent. -/
theorem getCache_zero_ttl_absent (key value : CStr) (t0 d : Int)
    (hk : validKey key) (hd : 1 ≤ d) :
    (getCache (setCache createCache key value 0 t0) key (t0 + d)).map Prod.fst =
      some none := by
  have hks : strncpyTrunc key MAX_KEY_SIZE = key := strncpyTrunc_of_valid hk
  have hlf : loadFactorExceeded createCache.count createCache.table_size = false := by
    decide
  have hnow : ¬ (t0 + d < t0 + 0) := by omega
  have hnow' : ¬ (d < 0) := by omega
  rw [setCache_no_resize key value 0 t0 hlf]
  simp [getCache, getCacheF, bucketCons, hks, getLoop, hnow, hnow', createCache]

/-- C4: for every key, after `setCache(key, "a", 100)` then
`setCache(key, "b", 100)` on a fresh cache (no resize is triggered, no
time passes), `getCache(key)` returns `"b"` — the most recent write is
the chain head and lookup takes the first live match — and afterwards
both entries are still present in the bucket chain, newest first
(`"a"` is byte 97, `"b"` is byte 98). -/
theorem setCache_shadowing (key : CStr) (t : Int) (hk : validKey key) :
    (getCache (setCache (setCache createCache key [97] 100 t) key [98] 100 t)
        key t).map Prod.fst = some (some [98]) ∧
    (afterGet (setCache (setCache createCache key [97] 100 t) key [98] 100 t)
        key t).entries (hash key INITIAL_TABLE_SIZE) =
      [{ key := key, value := [98], expry := t + 100, is_set := true },
       { key := key, value := [97], expry := t + 100, is_set := true }] := by
  have hks : strncpyTrunc key MAX_KEY_SIZE = key := strncpyTrunc_of_valid hk
  have hlf0 : loadFactorExceeded createCache.count createCache.table_size = false := by
    decide
  rw [setCache_no_resize key [97] 100 t hlf0]
  have hlf1 : loadFactorExceeded ((createCache.count + 1) % SIZE_T)
      createCache.table_size = false := by decide
  rw [setCache_no_resize key [98] 100 t hlf1]
  have ha : strncpyTrunc [97] MAX_VALUE_SIZE = [97] := by decide
  have hb : strncpyTrunc [98] MAX_VALUE_SIZE = [98] := by decide
  have hnow : t < t + 100 := by omega
  simp [getCache, getCacheF, afterGet, bucketCons, hks, ha, hb, getLoop, hnow,
    createCache]

/-- Concrete witness for the C4 shadowing theorem. -/
theorem setCache_shadowing_witness :
    validKey [107] ∧
    ((getCache (setCache (setCache createCache [107] [97] 100 0) [107] [98] 100 0)
        [107] 0).map Prod.fst = some (some [98]) ∧
    (afterGet (setCache (setCache createCache [107] [97] 100 0) [107] [98] 100 0)
        [107] 0).entries (hash [107] INITIAL_TABLE_SIZE) =
      [{ key := [107], value := [98], expry := 0 + 100, is_set := true },
       { key := [107], value := [97], expry := 0 + 100, is_set := true }]) :=
  ⟨by decide, setCache_shadowing [107] 0 (by decide)⟩

/-- C5 counterexample: on a cache where the same key was set twice,
`deleteCache` unlinks only the first (most recent) matching entry, so
the following `getCache` returns the shadowed older value (byte 97,
`"a"`), not NULL — refuting "for every cache state, delete then get
returns absent". -/
theorem deleteCache_then_getCache_counterexample :
    (getCache (deleteCache (setCache (setCache createCache [107] [97] 100 0)
        [107] [98] 100 0) [107]) [107] 0).map Prod.fst = some (some [97]) ∧
    (getCache (deleteCache (setCache (setCache createCache [107] [97] 100 0)
        [107] [98] 100 0) [107]) [107] 0).map Prod.fst ≠ some none := by
  constructor
  · decide
  · decide

/-- C5 amended: `deleteCache(key)` followed by `getCache(key)` returns
NULL regardless of the TTL the key was set with, provided the bucket
chain of `key` holds at most one entry and that entry (if any) matches
`key` — in particular whenever the key was set at most once and no
other key shares its bucket. -/
theorem deleteCache_then_getCache_absent (c : Cache) (key : CStr) (t : Int)
    (hch : ∀ e ∈ c.entries (hash key c.table_size), e.key = key)
    (hlen : (c.entries (hash key c.table_size)).length ≤ 1) :
    (getCache (deleteCache c key) key t).map Prod.fst = some none := by
  cases hE : c.entries (hash key c.table_size) with
  | nil =>
    simp [deleteCache, hE, deleteLoop, getCache, getCacheF, getLoop]
  | cons e rest =>
    cases rest with
    | nil =>
      have hke : e.key = key := hch e (by simp [hE])
      simp [deleteCache, hE, deleteLoop, hke, getCache, getCacheF, getLoop]
    | cons e2 rest2 => simp [hE] at hlen

/-- Concrete witness for the C5 amended theorem: a key set once with
TTL 5, deleted, then looked up. -/
theorem deleteCache_then_getCache_absent_witness :
    (∀ e ∈ (setCache createCache [97] [120] 5 0).entries
        (hash [97] (setCache createCache [97] [120] 5 0).table_size), e.key = [97]) ∧
    ((setCache createCache [97] [120] 5 0).entries
        (hash [97] (setCache createCache [97] [120] 5 0).table_size)).length ≤ 1 ∧
    (getCache (deleteCache (setCache createCache [97] [120] 5 0) [97]) [97] 9).map
        Prod.fst = some none :=
  ⟨by decide, by decide,
    deleteCache_then_getCache_absent (setCache createCache [97] [120] 5 0) [97] 9
      (by decide) (by decide)⟩

/-- C1: the claim says `getCache` always terminates, in particular when
the key is absent and the bucket chain holds an entry with a different
key.  The code's loop advances its cursor only inside the key-match
branch, so on such a chain it loops forever: here keys `"b!"` (bytes
98, 33) and `"aB"` (bytes 97, 66) are DJB2-colliding, `"b!"` is in the
table, and `getCache("aB")` returns no answer for any amount of fuel —
the C call never returns. -/
theorem getCache_absent_key_never_terminates :
    ∀ fuel : Nat,
      getCacheF fuel (setCache createCache [98, 33] [120] 100 0) [97, 66] 0 = none := by
  intro fuel
  have hch : (setCache createCache [98, 33] [120] 100 0).entries
      (hash [97, 66] (setCache createCache [98, 33] [120] 100 0).table_size) =
      [{ key := [98, 33], value := [120], expry := 100, is_set := true }] := by decide
  have hne : ¬ ({ key := [98, 33], value := [120], expry := (100 : Int), is_set := true } :
      CacheEntry).key = [97, 66] := by decide
  simp only [getCacheF]
  rw [hch, getLoop_stuck hne 0 fuel []]

/-- Concrete witness for the C9 expiration theorem. -/
theorem getCache_zero_ttl_absent_witness :
    validKey [97] ∧ (1 : Int) ≤ 7 ∧
      (getCache (setCache createCache [97] [120] 0 0) [97] (0 + 7)).map Prod.fst =
        some none :=
  ⟨by decide, by decide, getCache_zero_ttl_absent [97] [120] 0 7 (by decide) (by decide)⟩

/-- C7: after a key is set twice and the table is resized, the resize
walk prepends the old chain head first, so the two entries come out in
reversed order — the older entry is now the chain head — and a
`getCache` performed after the resize returns the oldest unexpired
value `va`, not the most recently set `vb`. -/
theorem resize_reverses_chain_get_returns_oldest (key va vb : CStr)
    (ttla ttlb t0 t1 t2 : Int) (hk : validKey key) (hva : validValue va)
    (hvb : validValue vb) (hun : t2 < t0 + ttla) :
    (resizeCache (setCache (setCache createCache key va ttla t0) key vb ttlb t1)).entries
        (hash key (INITIAL_TABLE_SIZE * 2)) =
      [{ key := key, value := va, expry := t0 + ttla, is_set := true },
       { key := key, value := vb, expry := t1 + ttlb, is_set := true }] ∧
    (getCache (resizeCache (setCache (setCache createCache key va ttla t0)
        key vb ttlb t1)) key t2).map Prod.fst = some (some va) := by
  have hks : strncpyTrunc key MAX_KEY_SIZE = key := strncpyTrunc_of_valid hk
  have hvas : strncpyTrunc va MAX_VALUE_SIZE = va := strncpyTrunc_of_valid hva
  have hvbs : strncpyTrunc vb MAX_VALUE_SIZE = vb := strncpyTrunc_of_valid hvb
  have hP : setCache (setCache createCache key va ttla t0) key vb ttlb t1 =
      { entries := bucketCons (hash key INITIAL_TABLE_SIZE)
          { key := strncpyTrunc key MAX_KEY_SIZE
            value := strncpyTrunc vb MAX_VALUE_SIZE
            expry := t1 + ttlb, is_set := true }
          (bucketCons (hash key INITIAL_TABLE_SIZE)
            { key := strncpyTrunc key MAX_KEY_SIZE
              value := strncpyTrunc va MAX_VALUE_SIZE
              expry := t0 + ttla, is_set := true }
            (fun _ => []))
        table_size := INITIAL_TABLE_SIZE
        count := 2 } := rfl
  rw [hP]
  have hpt : ∀ j, (Cache.mk (bucketCons (hash key INITIAL_TABLE_SIZE)
      { key := strncpyTrunc key MAX_KEY_SIZE, value := strncpyTrunc vb MAX_VALUE_SIZE,
        expry := t1 + ttlb, is_set := true }
      (bucketCons (hash key INITIAL_TABLE_SIZE)
        { key := strncpyTrunc key MAX_KEY_SIZE, value := strncpyTrunc va MAX_VALUE_SIZE,
          expry := t0 + ttla, is_set := true }
        (fun _ => []))) INITIAL_TABLE_SIZE 2).entries j =
      if j = hash key INITIAL_TABLE_SIZE then
        [{ key := strncpyTrunc key MAX_KEY_SIZE, value := strncpyTrunc vb MAX_VALUE_SIZE,
           expry := t1 + ttlb, is_set := true },
         { key := strncpyTrunc key MAX_KEY_SIZE, value := strncpyTrunc va MAX_VALUE_SIZE,
           expry := t0 + ttla, is_set := true }] else [] := by
    intro j
    by_cases hj : j = hash key INITIAL_TABLE_SIZE <;> simp [bucketCons, hj]
  have hE := resizeCache_entries_single _ (hash key INITIAL_TABLE_SIZE) _
    (hash_lt key (by decide)) hpt
  have hch : (resizeCache (Cache.mk (bucketCons (hash key INITIAL_TABLE_SIZE)
      { key := strncpyTrunc key MAX_KEY_SIZE, value := strncpyTrunc vb MAX_VALUE_SIZE,
        expry := t1 + ttlb, is_set := true }
      (bucketCons (hash key INITIAL_TABLE_SIZE)
        { key := strncpyTrunc key MAX_KEY_SIZE, value := strncpyTrunc va MAX_VALUE_SIZE,
          expry := t0 + ttla, is_set := true }
        (fun _ => []))) INITIAL_TABLE_SIZE 2)).entries
      (hash key (INITIAL_TABLE_SIZE * 2)) =
      [{ key := key, value := va, expry := t0 + ttla, is_set := true },
       { key := key, value := vb, expry := t1 + ttlb, is_set := true }] := by
    rw [hE]
    simp [List.foldl_cons, List.foldl_nil, bucketCons, hks, hvas, hvbs]
  constructor
  · exact hch
  · simp only [getCache, getCacheF]
    rw [show (resizeCache (Cache.mk (bucketCons (hash key INITIAL_TABLE_SIZE)
        { key := strncpyTrunc key MAX_KEY_SIZE, value := strncpyTrunc vb MAX_VALUE_SIZE,
          expry := t1 + ttlb, is_set := true }
        (bucketCons (hash key INITIAL_TABLE_SIZE)
          { key := strncpyTrunc key MAX_KEY_SIZE, value := strncpyTrunc va MAX_VALUE_SIZE,
            expry := t0 + ttla, is_set := true }
          (fun _ => []))) INITIAL_TABLE_SIZE 2)).table_size
        = INITIAL_TABLE_SIZE * 2 from rfl, hch]
    simp [getLoop, hun, hvas]

/-- Concrete witness for the C7 theorem. -/
theorem resize_reverses_chain_get_returns_oldest_witness :
    validKey [107] ∧ validValue [97] ∧ validValue [98] ∧ (0 : Int) < 0 + 100 ∧
    ((resizeCache (setCache (setCache createCache [107] [97] 100 0)
        [107] [98] 100 0)).entries (hash [107] (INITIAL_TABLE_SIZE * 2)) =
      [{ key := [107], value := [97], expry := 0 + 100, is_set := true },
       { key := [107], value := [98], expry := 0 + 100, is_set := true }] ∧
    (getCache (resizeCache (setCache (setCache createCache [107] [97] 100 0)
        [107] [98] 100 0)) [107] 0).map Prod.fst = some (some [97])) :=
  ⟨by decide, by decide, by decide, by decide,
    resize_reverses_chain_get_returns_oldest [107] [97] [98] 100 100 0 0 0
      (by decide) (by decide) (by decide) (by decide)⟩

/-- C6: resize does relocate every entry into bucket
`hash(key) mod new_size` (first conjunct: the DJB2-colliding keys
`"aB"` and `"b!"` both land in bucket 3176 of the doubled table, in
reversed order), but the claimed consequence — every still-unexpired
key stays retrievable — fails: after the resize the bucket head for
`"b!"` is the entry keyed `"aB"`, and `getCache("b!")` never returns
for any amount of fuel, because the lookup loop does not advance past
a non-matching entry. -/
theorem resize_then_getCache_never_terminates :
    (resizeCache (setCache (setCache createCache [97, 66] [97] 100 0)
        [98, 33] [98] 100 0)).entries 3176 =
      [{ key := [97, 66], value := [97], expry := 100, is_set := true },
       { key := [98, 33], value := [98], expry := 100, is_set := true }] ∧
    ∀ fuel : Nat,
      getCacheF fuel (resizeCache (setCache (setCache createCache [97, 66] [97] 100 0)
        [98, 33] [98] 100 0)) [98, 33] 0 = none := by
  have hP : setCache (setCache createCache [97, 66] [97] 100 0) [98, 33] [98] 100 0 =
      { entries := bucketCons 3176
          { key := [98, 33], value := [98], expry := 100, is_set := true }
          (bucketCons 3176
            { key := [97, 66], value := [97], expry := 100, is_set := true }
            (fun _ => []))
        table_size := INITIAL_TABLE_SIZE
        count := 2 } := rfl
  rw [hP]
  have hpt : ∀ j, (Cache.mk (bucketCons 3176
      { key := [98, 33], value := [98], expry := 100, is_set := true }
      (bucketCons 3176
        { key := [97, 66], value := [97], expry := 100, is_set := true }
        (fun _ => []))) INITIAL_TABLE_SIZE 2).entries j =
      if j = 3176 then
        [{ key := [98, 33], value := [98], expry := 100, is_set := true },
         { key := [97, 66], value := [97], expry := 100, is_set := true }] else [] := by
    intro j
    by_cases hj : j = 3176 <;> simp [bucketCons, hj]
  have hE := resizeCache_entries_single _ 3176 _ (by decide) hpt
  have hch : (resizeCache (Cache.mk (bucketCons 3176
      { key := [98, 33], value := [98], expry := 100, is_set := true }
      (bucketCons 3176
        { key := [97, 66], value := [97], expry := 100, is_set := true }
        (fun _ => []))) INITIAL_TABLE_SIZE 2)).entries 3176 =
      [{ key := [97, 66], value := [97], expry := 100, is_set := true },
       { key := [98, 33], value := [98], expry := 100, is_set := true }] := by
    rw [hE]; decide
  constructor
  · exact hch
  · intro fuel
    simp only [getCacheF]
    have hidx : hash [98, 33] ((resizeCache (Cache.mk (bucketCons 3176
        { key := [98, 33], value := [98], expry := 100, is_set := true }
        (bucketCons 3176
          { key := [97, 66], value := [97], expry := 100, is_set := true }
          (fun _ => []))) INITIAL_TABLE_SIZE 2)).table_size) = 3176 := by decide
    rw [hidx, hch, getLoop_stuck (by decide) 0 fuel
      [{ key := [98, 33], value := [98], expry := 100, is_set := true }]]

/-- C2 counterexample: after `setCache("a", "x", 0)` at time 0, a first
`getCache("a")` at time 1 tombstones the expired entry and decrements
`count` to 0, so the invariant holds; a second `getCache("a")` at time
1 terminates, matches the same expired entry again (the code never
checks `is_set`), and decrements `count` once more — `size_t`
underflow leaves `count = 2^64 - 1` while zero live entries are
reachable, so this `getCache` call does not preserve the invariant. -/
theorem getCache_twice_breaks_countInv :
    countInv (afterGet (setCache createCache [97] [120] 0 0) [97] 1) ∧
    (getCache (afterGet (setCache createCache [97] [120] 0 0) [97] 1) [97] 1).isSome
      = true ∧
    ¬ countInv (afterGet (afterGet (setCache createCache [97] [120] 0 0) [97] 1)
      [97] 1) := by
  have h1 : afterGet (setCache createCache [97] [120] 0 0) [97] 1 =
      { entries := fun j => if j = 7670 then
            [{ key := [97], value := [120], expry := 0, is_set := false }]
          else bucketCons 7670
            { key := [97], value := [120], expry := 0, is_set := true }
            (fun _ => []) j
        table_size := INITIAL_TABLE_SIZE
        count := 0 } := rfl
  have h1pt : ∀ j, j < (afterGet (setCache createCache [97] [120] 0 0) [97] 1).table_size →
      (afterGet (setCache createCache [97] [120] 0 0) [97] 1).entries j =
        if j = 7670 then
          [{ key := [97], value := [120], expry := 0, is_set := false }] else [] := by
    intro j _
    rw [h1]
    by_cases hj : j = 7670 <;> simp [bucketCons, hj]
  have h1live : liveCount (afterGet (setCache createCache [97] [120] 0 0) [97] 1) = 0 :=
    liveCount_fun_single _ 7670 _ (by rw [h1]; decide) h1pt
  have h2 : afterGet (afterGet (setCache createCache [97] [120] 0 0) [97] 1) [97] 1 =
      { entries := fun j => if j = 7670 then
            [{ key := [97], value := [120], expry := 0, is_set := false }]
          else (afterGet (setCache createCache [97] [120] 0 0) [97] 1).entries j
        table_size := INITIAL_TABLE_SIZE
        count := 18446744073709551615 } := rfl
  have h2pt : ∀ j, j < (afterGet (afterGet (setCache createCache [97] [120] 0 0) [97] 1)
        [97] 1).table_size →
      (afterGet (afterGet (setCache createCache [97] [120] 0 0) [97] 1) [97] 1).entries j =
        if j = 7670 then
          [{ key := [97], value := [120], expry := 0, is_set := false }] else [] := by
    intro j hj
    rw [h2]
    by_cases hj7 : j = 7670
    · simp [hj7]
    · simp only [hj7, if_false]
      rw [h1pt j (by rw [h1]; rw [h2] at hj; exact hj), if_neg hj7]
  have h2live : liveCount (afterGet (afterGet (setCache createCache [97] [120] 0 0)
      [97] 1) [97] 1) = 0 :=
    liveCount_fun_single _ 7670 _ (by rw [h2]; decide) h2pt
  refine ⟨?_, by decide, ?_⟩
  · unfold countInv
    rw [h1live]
    rw [h1]
  · unfold countInv
    rw [h2live]
    intro hc
    rw [h2] at hc
    simp at hc

/-- C2 amended: `setCache` always preserves the invariant "`count`
equals the number of reachable live entries" (as long as the live
count stays in `size_t` range): a resize moves entries without
changing their liveness, the inserted entry is live, and `count` is
incremented once.  `getCache` and `deleteCache` need not preserve it —
`getCache` decrements `count` again when it re-encounters an
already-tombstoned expired match (see the counterexample), and
`deleteCache` decrements `count` when it unlinks a tombstone. -/
theorem setCache_preserves_countInv (c : Cache) (key value : CStr) (ttl now : Int)
    (hsz : 0 < c.table_size) (hinv : countInv c)
    (hlt : liveCount c + 1 < SIZE_T) :
    countInv (setCache c key value ttl now) := by
  unfold countInv at hinv ⊢
  simp only [setCache]
  set c1 := if loadFactorExceeded c.count c.table_size then resizeCache c else c with hc1
  have hfacts : 0 < c1.table_size ∧ c1.count = c.count ∧ liveCount c1 = liveCount c := by
    rw [hc1]
    by_cases hb : loadFactorExceeded c.count c.table_size
    · simp only [hb, if_true]
      have hts : (resizeCache c).table_size = c.table_size * 2 := rfl
      have hcn : (resizeCache c).count = c.count := rfl
      exact ⟨by rw [hts]; omega, hcn, liveCount_resizeCache c hsz⟩
    · rw [if_neg hb]
      exact ⟨hsz, rfl, rfl⟩
  obtain ⟨h1, h2, h3⟩ := hfacts
  have hlive : liveCount { c1 with
      entries := bucketCons (hash key c1.table_size)
        { key := strncpyTrunc key MAX_KEY_SIZE, value := strncpyTrunc value MAX_VALUE_SIZE,
          expry := now + ttl, is_set := true } c1.entries
      count := (c1.count + 1) % SIZE_T } = 1 + liveCount c1 := by
    unfold liveCount
    show sumLive c1.table_size (bucketCons (hash key c1.table_size)
        { key := strncpyTrunc key MAX_KEY_SIZE, value := strncpyTrunc value MAX_VALUE_SIZE,
          expry := now + ttl, is_set := true } c1.entries)
      = 1 + sumLive c1.table_size c1.entries
    rw [sumLive_bucketCons (hash_lt key h1)]
    simp
  show ((c1.count + 1) % SIZE_T) = _
  rw [hlive, h2, h3, hinv, Nat.mod_eq_of_lt hlt, Nat.add_comm]

/-- Concrete witness for the C2 amended theorem. -/
theorem setCache_preserves_countInv_witness :
    0 < createCache.table_size ∧ countInv createCache ∧
    liveCount createCache + 1 < SIZE_T ∧
    countInv (setCache createCache [97] [120] 5 0) := by
  have h0 : liveCount createCache = 0 := sumLive_empty _
  have hinv : countInv createCache := by
    unfold countInv
    rw [h0]
    rfl
  have hlt : liveCount createCache + 1 < SIZE_T := by
    rw [h0]; decide
  exact ⟨by decide, hinv, hlt,
    setCache_preserves_countInv createCache [97] [120] 5 0 (by decide) hinv hlt⟩

end LahmacunCache
